import Mathlib

/-!
Verification of the Interactive Session Orchestration Engine of the
remote-claude repository.  The TypeScript sources (`src/tmux/executor.ts`,
`src/tmux/parser.ts`, `src/dsl/errors.ts`) are shallowly embedded here as
executable Lean functions over `List Char` (JavaScript strings are modelled
as lists of Unicode scalar characters; the ASCII control characters that
the code manipulates are unaffected by the UTF-16 versus scalar-value
distinction).
-/

namespace RemoteClaude

/-- The ASCII escape character `\x1b`. -/
def ESC : Char := Char.ofNat 27

/-- The ASCII bell character `\x07` (terminates OSC sequences). -/
def BEL : Char := Char.ofNat 7

/-- The double-quote character `\x22`. -/
def DQUOTE : Char := Char.ofNat 34

/-- The backtick character `\x60`. -/
def BACKTICK : Char := Char.ofNat 96

/-- The single-quote character `\x27`. -/
def SQUOTE : Char := Char.ofNat 39

/-- The dollar character. -/
def DOLLAR : Char := Char.ofNat 36

/-- JavaScript `String.prototype.split('\n')`: cuts a character list at
every newline; a string with `k` newlines yields `k+1` chunks, so the empty
string yields one empty chunk. -/
def splitNl : List Char → List (List Char)
  | [] => [[]]
  | c :: cs =>
    match splitNl cs with
    | [] => [[c]]
    | h :: t => if c = '\n' then [] :: h :: t else (c :: h) :: t

/-- JavaScript `Array.prototype.join('\n')`: interleaves the chunks with newlines. -/
def joinNl : List (List Char) → List Char
  | [] => []
  | [l] => l
  | l :: ls => l ++ '\n' :: joinNl ls

/-- The JavaScript `WhiteSpace`/`LineTerminator` set used by
`String.prototype.trimEnd` and `trim`. -/
def isJsWhitespace (c : Char) : Bool :=
  c = ' ' || c = '\t' || c = '\n' || c = '\r' ||
  c.toNat = 11 || c.toNat = 12 || c.toNat = 0xA0 || c.toNat = 0xFEFF ||
  c.toNat = 0x1680 || (0x2000 ≤ c.toNat && c.toNat ≤ 0x200A) ||
  c.toNat = 0x2028 || c.toNat = 0x2029 || c.toNat = 0x202F ||
  c.toNat = 0x205F || c.toNat = 0x3000

/-- JavaScript `String.prototype.trimEnd`: drop trailing whitespace. -/
def jsTrimEnd (l : List Char) : List Char :=
  (l.reverse.dropWhile isJsWhitespace).reverse

/-- The blank-line test `line.trim() === ''`: true iff every character is whitespace. -/
def isBlankLine (l : List Char) : Bool :=
  l.all isJsWhitespace

/-- JavaScript `Array.prototype.slice(-n)`: for `n = 0` the index `-0` is
`0` and the whole array is returned; for `n > 0` the last
`min n length` elements are returned. -/
def jsSliceNeg (l : List (List Char)) (n : Nat) : List (List Char) :=
  if n = 0 then l else l.drop (l.length - min n l.length)

/-- ASCII lower-casing, as applied by `toLowerCase` to the ASCII patterns
and windows this development reasons about. -/
def toLowerL (l : List Char) : List Char :=
  l.map Char.toLower

/-- Is `c` a CSI parameter byte matched by the character class `[0-9;]`? -/
def isCsiParam (c : Char) : Bool :=
  c.isDigit || c = ';'

/-- Is `c` matched by the character class `[a-zA-Z]`? -/
def isAsciiAlpha (c : Char) : Bool :=
  c.isAlpha

/-- Scanner state for the CSI regex `/\x1b\[[0-9;]*[a-zA-Z]/g`:
either scanning normally, or having just read `ESC`, or inside the
parameter run after `ESC [` (with the parameters read so far). -/
inductive CsiState
  | normal
  | sawEsc
  | inParams (params : List Char)

/-- Single left-to-right pass implementing
`text.replace(/\x1b\[[0-9;]*[a-zA-Z]/g, '')`.  A match attempt starts at
each `ESC`; while the attempt is pending the consumed characters are
carried in the state.  If the attempt completes (`ESC [ params letter`)
the whole match is dropped and scanning resumes after it; if it fails the
consumed characters are emitted verbatim (none of them past the leading
`ESC` can start a match, since parameter characters and `[` are not `ESC`)
and scanning resumes at the character that broke the attempt, exactly as
the regex engine resumes at the position one past the failed start. -/
def csiGo : CsiState → List Char → List Char
  | .normal, [] => []
  | .normal, c :: rest =>
    if c = ESC then csiGo .sawEsc rest else c :: csiGo .normal rest
  | .sawEsc, [] => [ESC]
  | .sawEsc, c :: rest =>
    if c = '[' then csiGo (.inParams []) rest
    else if c = ESC then ESC :: csiGo .sawEsc rest
    else ESC :: c :: csiGo .normal rest
  | .inParams ps, [] => ESC :: '[' :: ps
  | .inParams ps, c :: rest =>
    if isCsiParam c then csiGo (.inParams (ps ++ [c])) rest
    else if isAsciiAlpha c then csiGo .normal rest
    else if c = ESC then (ESC :: '[' :: ps) ++ csiGo .sawEsc rest
    else (ESC :: '[' :: ps) ++ c :: csiGo .normal rest

/-- First pass of `removeAnsiCodes`:
`text.replace(/\x1b\[[0-9;]*[a-zA-Z]/g, '')`. -/
def stripCSI (l : List Char) : List Char :=
  csiGo .normal l

/-- Scanner state for the OSC regex `/\x1b\][^\x07]*\x07/g`. -/
inductive OscState
  | normal
  | sawEsc
  | inBody (body : List Char)

/-- Single left-to-right pass implementing
`text.replace(/\x1b\][^\x07]*\x07/g, '')`.  After `ESC ]` every character
up to the first `BEL` belongs to the match; if the input ends without a
`BEL` the consumed characters are emitted verbatim (they contain no `BEL`,
so no later OSC match can lie inside them). -/
def oscGo : OscState → List Char → List Char
  | .normal, [] => []
  | .normal, c :: rest =>
    if c = ESC then oscGo .sawEsc rest else c :: oscGo .normal rest
  | .sawEsc, [] => [ESC]
  | .sawEsc, c :: rest =>
    if c = ']' then oscGo (.inBody []) rest
    else if c = ESC then ESC :: oscGo .sawEsc rest
    else ESC :: c :: oscGo .normal rest
  | .inBody b, [] => ESC :: ']' :: b
  | .inBody b, c :: rest =>
    if c = BEL then oscGo .normal rest
    else oscGo (.inBody (b ++ [c])) rest

/-- Second pass of `removeAnsiCodes`:
`text.replace(/\x1b\][^\x07]*\x07/g, '')`. -/
def stripOSC (l : List Char) : List Char :=
  oscGo .normal l

/-- Third pass of `removeAnsiCodes`: `text.replace(/\x1b[=>]/g, '')`. -/
def stripMode : List Char → List Char
  | [] => []
  | [c] => [c]
  | c :: d :: rest =>
    if c = ESC && (d = '=' || d = '>') then stripMode rest
    else c :: stripMode (d :: rest)

/-- Is `c` matched by `[\x00-\x08\x0B-\x0C\x0E-\x1F\x7F]` (the control
characters deleted by the fourth pass; tab, newline and carriage return are
deliberately excluded)? -/
def isOtherCtrl (c : Char) : Bool :=
  c.toNat ≤ 8 || (11 ≤ c.toNat && c.toNat ≤ 12) ||
  (14 ≤ c.toNat && c.toNat ≤ 31) || c.toNat = 127

/-- Fourth pass of `removeAnsiCodes`:
`text.replace(/[\x00-\x08\x0B-\x0C\x0E-\x1F\x7F]/g, '')`. -/
def stripCtrl (l : List Char) : List Char :=
  l.filter (fun c => !isOtherCtrl c)

/-- Function `removeAnsiCodes` from `src/tmux/parser.ts`: the four global regex
replacements applied in source order. -/
def removeAnsiCodes (text : List Char) : List Char :=
  stripCtrl (stripMode (stripOSC (stripCSI text)))

/-- Function `cleanOutput` from `src/tmux/parser.ts`: remove ANSI codes, right-trim
every line, and drop the leading and trailing runs of fully-blank lines
(the index-scanning loops of the source compute exactly these two
`dropWhile`s; an all-blank input yields the empty string). -/
def cleanOutput (text : List Char) : List Char :=
  let lines := (splitNl (removeAnsiCodes text)).map jsTrimEnd
  let kept := ((lines.dropWhile isBlankLine).reverse.dropWhile isBlankLine).reverse
  joinNl kept

/-- Structure `CaptureResult` from `src/types` (`fullOutput`, `summary`,
`isTruncated`, `totalLines`). -/
structure CaptureResult where
  fullOutput : List Char
  summary : List Char
  isTruncated : Bool
  totalLines : Nat
deriving DecidableEq

/-- The omission marker inserted between the head and tail parts of a
truncated summary, stating the number of elided lines. -/
def omissionMarker (omitted : Nat) : List Char :=
  "\n\n... (중간 ".data ++ (toString omitted).data ++ "줄 생략) ...\n\n".data

/-- Function `processCaptureResult` from `src/tmux/parser.ts` (the source defaults
are `firstLines = 100`, `lastLines = 50`).  The tail part is taken with
`lines.slice(-lastLines)`, hence `jsSliceNeg`. -/
def processCaptureResult (output : List Char) (firstLines lastLines : Nat) :
    CaptureResult :=
  let fullOutput := cleanOutput output
  let lines := splitNl fullOutput
  let totalLines := lines.length
  if totalLines ≤ firstLines + lastLines then
    { fullOutput := fullOutput, summary := fullOutput,
      isTruncated := false, totalLines := totalLines }
  else
    let firstPart := lines.take firstLines
    let lastPart := jsSliceNeg lines lastLines
    let omittedLines := totalLines - firstLines - lastLines
    { fullOutput := fullOutput,
      summary := joinNl firstPart ++ omissionMarker omittedLines ++ joinNl lastPart,
      isTruncated := true, totalLines := totalLines }

/-- Does `hay` start with `needle`? -/
def startsWithL : List Char → List Char → Bool
  | [], _ => true
  | _ :: _, [] => false
  | a :: as, b :: bs => a = b && startsWithL as bs

/-- Literal substring test, the semantics of `RegExp.prototype.test` for
the escaped-literal patterns used by the classifier. -/
def containsSub (needle : List Char) : List Char → Bool
  | [] => needle.isEmpty
  | c :: rest => startsWithL needle (c :: rest) || containsSub needle rest

/-- Specification-side reading of "the last `n` lines": all lines when
there are fewer than `n`. -/
def lastNLines (n : Nat) (lines : List (List Char)) : List (List Char) :=
  lines.drop (lines.length - min n lines.length)

/-- The interactive-prompt patterns of `detectInteractivePrompt`
(each regex is a literal string once its escapes are resolved). -/
def promptPatterns : List (List Char) :=
  ["[y/n]".data, "continue?".data, "proceed?".data,
   "do you want to".data, "would you like to".data]

/-- Function `detectInteractivePrompt` from `src/tmux/parser.ts`: clean, take
`split('\n').slice(-5).join('\n').toLowerCase()`, and test every pattern
against that window. -/
def detectInteractivePrompt (output : List Char) : Bool :=
  let cleaned := cleanOutput output
  let window := toLowerL (joinNl (jsSliceNeg (splitNl cleaned) 5))
  promptPatterns.any (fun p => containsSub p window)

/-- The error patterns of `detectError`. -/
def errorPatterns : List (List Char) :=
  ["error:".data, "exception:".data, "fatal:".data,
   "failed:".data, "cannot".data, "unable to".data]

/-- Function `detectError` from `src/tmux/parser.ts`: clean and lower-case the
whole output, then test every pattern against all of it. -/
def detectError (output : List Char) : Bool :=
  let cleaned := toLowerL (cleanOutput output)
  errorPatterns.any (fun p => containsSub p cleaned)

/-- Structure `TmuxCommandResult` from `src/types` (`success`, `output`, `error?`). -/
structure TmuxCommandResult where
  success : Bool
  output : String
  error : Option String
deriving DecidableEq

/-- The observable behaviours of the promisified `child_process.exec`
call inside `executeTmuxCommand`: it either resolves with
`{stdout, stderr}` or rejects (shell failure, timeout, buffer overflow)
with a thrown value that is an `Error` carrying a message or some other
value. -/
inductive ExecOutcome
  | completed (stdout stderr : String)
  | threwError (message : String)
  | threwNonError
deriving DecidableEq

/-- The options record passed to `execAsync` by `executeTmuxCommand`. -/
structure ExecOptions where
  timeout : Nat
  maxBuffer : Nat
deriving DecidableEq

/-- The default of `executeTmuxCommand`'s `timeout` parameter
(`timeout: number = 30000`). -/
def executeTmuxCommandDefaultTimeout : Nat := 30000

/-- The options `executeTmuxCommand` passes to `execAsync`:
the caller's timeout and `maxBuffer: 10 * 1024 * 1024`. -/
def executeTmuxCommandOptions (timeout : Nat) : ExecOptions :=
  { timeout := timeout, maxBuffer := 10 * 1024 * 1024 }

/-- Function `executeTmuxCommand` from `src/tmux/executor.ts` as a function of the
exec outcome: on resolution it returns success with
`error: stderr || undefined` (the empty string is falsy); on a thrown
`Error` it returns `{success: false, output: '', error: error.message}`;
on any other thrown value `{success: false, output: '',
error: 'Unknown error occurred'}`.  The `try`/`catch` makes the function
total: no outcome escapes as an exception. -/
def executeTmuxCommand (outcome : ExecOutcome) : TmuxCommandResult :=
  match outcome with
  | .completed stdout stderr =>
    { success := true, output := stdout,
      error := if stderr = "" then none else some stderr }
  | .threwError message =>
    { success := false, output := "", error := some message }
  | .threwNonError =>
    { success := false, output := "", error := some "Unknown error occurred" }

/-- The replacement `keys.replace(/"/g, '\\"')` inside `sendKeys`: each double quote
becomes backslash-quote; nothing else is escaped. -/
def escapeDoubleQuotes (keys : List Char) : List Char :=
  (keys.map (fun c => if c = DQUOTE then ['\\', DQUOTE] else [c])).flatten

/-- The command string built by `sendKeys` in `src/tmux/executor.ts`:
`tmux send-keys -t ${sessionName} ${literalFlag} "${escapedKeys}"`,
where `literalFlag` is `-l` when `literal` (the default) and empty
otherwise. -/
def sendKeysCommand (sessionName keys : List Char) (literal : Bool) : List Char :=
  "tmux send-keys -t ".data ++ sessionName ++ [' '] ++
    (if literal then "-l".data else []) ++
    [' ', DQUOTE] ++ escapeDoubleQuotes keys ++ [DQUOTE]

/-- The command string built by `sendEnter` in `src/tmux/executor.ts`:
`tmux send-keys -t ${sessionName} Enter`. -/
def sendEnterCommand (sessionName : List Char) : List Char :=
  "tmux send-keys -t ".data ++ sessionName ++ " Enter".data

/-- POSIX shell reading of a double-quoted argument (`exec` runs the
command through the shell).  Input is the character stream following the
opening quote; the result is the literal value of the argument together
with the stream following the closing quote.  `none` when the quote is
never closed, or when an unescaped `$` or backtick occurs — in those
positions the shell would expand, so the argument is not the literal
text.  Inside double quotes a backslash escapes only `"`, `\`, `$`,
backtick and newline (line continuation); before any other character
both characters stand for themselves. -/
def readDoubleQuoted : List Char → Option (List Char × List Char)
  | [] => none
  | c :: rest =>
    if c = DQUOTE then some ([], rest)
    else if c = DOLLAR || c = BACKTICK then none
    else if c = '\\' then
      match rest with
      | [] => none
      | d :: rest2 =>
        if d = DQUOTE || d = '\\' || d = DOLLAR || d = BACKTICK then
          match readDoubleQuoted rest2 with
          | some (v, r) => some (d :: v, r)
          | none => none
        else if d = '\n' then readDoubleQuoted rest2
        else
          match readDoubleQuoted rest2 with
          | some (v, r) => some ('\\' :: d :: v, r)
          | none => none
    else
      match readDoubleQuoted rest with
      | some (v, r) => some (c :: v, r)
      | none => none

/-- Split on single spaces, keeping chunks — used to read off the
arguments of the quote-free `sendEnter` command. -/
def wordSplit : List Char → List (List Char)
  | [] => [[]]
  | c :: cs =>
    match wordSplit cs with
    | [] => [[c]]
    | h :: t => if c = ' ' then [] :: h :: t else (c :: h) :: t

/-- A character that needs no shell treatment: session names and bare
words made of these tokenize as themselves. -/
def isPlainShellChar (c : Char) : Bool :=
  !(c = ' ' || c = DQUOTE || c = '\\' || c = DOLLAR || c = BACKTICK ||
    c = SQUOTE || c = '\n' || c = '\t')

/-- A text whose double-quoted form is fully literal: no backslash,
dollar or backtick (double quotes themselves are escaped by `sendKeys`
and survive). -/
def isDqSafeText (text : List Char) : Bool :=
  text.all (fun c => !(c = '\\' || c = DOLLAR || c = BACKTICK))

/-- Type `ParsedSegment` from `src/dsl/parser.ts` as consumed by the sequence
executor: a named key or literal text. -/
inductive ParsedSegment
  | key (key : String)
  | text (content : String)
deriving DecidableEq

/-- One adapter invocation recorded by the modelled sequence executor. -/
inductive AdapterCall
  | sendKey (sessionName key : String)
  | sendLiteralText (sessionName content : String)
deriving DecidableEq

/-- The adapter operation a segment compiles to: send-key for `Key`,
send-literal-text for `Text`. -/
def segmentCall (sessionName : String) : ParsedSegment → AdapterCall
  | .key k => .sendKey sessionName k
  | .text c => .sendLiteralText sessionName c

/-- Modelled from the spec: the body of `executeCommandSequence`
(`src/tmux/executor.ts` is present only through its tests).  Spec §4.5:
iterate segments in order, one adapter call per segment; on the first
adapter failure stop immediately and return an aggregate failure carrying
that step's error; an empty list is a trivial success with zero calls.
The abstract `adapter` maps the call index and segment to the
`TmuxCommandResult` the process adapter returns (the tests drive exactly
this interface through the mocked `exec`); the returned trace lists the
adapter calls actually issued, in order. -/
def runSegments (adapter : Nat → ParsedSegment → TmuxCommandResult)
    (sessionName : String) :
    Nat → List ParsedSegment → TmuxCommandResult × List AdapterCall
  | _, [] => ({ success := true, output := "", error := none }, [])
  | i, seg :: rest =>
    let r := adapter i seg
    if r.success then
      let (res, calls) := runSegments adapter sessionName (i + 1) rest
      (res, segmentCall sessionName seg :: calls)
    else
      ({ success := false, output := "", error := r.error },
       [segmentCall sessionName seg])

/-- Modelled from the spec: `executeCommandSequence(sessionName, commands,
firstLines, lastLines)`.  The capture-line counts are accepted but play no
part in the replay itself (the tests record no adapter call beyond the
per-segment ones: an empty sequence performs zero `exec` calls). -/
def executeCommandSequence (adapter : Nat → ParsedSegment → TmuxCommandResult)
    (sessionName : String) (segments : List ParsedSegment)
    (firstLines lastLines : Nat) : TmuxCommandResult × List AdapterCall :=
  runSegments adapter sessionName 0 segments

/-- The error classes of `src/dsl/errors.ts`, with their data fields; the
`other` constructor stands for any `Error` that is none of the five
classes. -/
inductive AppError
  | mixedCharacter (keyChars nonKeyChars : List String)
  | tmuxCommand (message command sessionName : String) (exitCode : Option Nat)
  | tmuxTimeout (sessionName : String) (timeoutMs : Nat)
  | dslParse (message input : String) (position : Option Nat)
  | sessionConfig (message channelId : String)
  | other (message : String)
deriving DecidableEq

/-- Function `getErrorType` from `src/dsl/errors.ts`: the machine-checkable
discriminator of each error class. -/
def getErrorType : AppError → String
  | .mixedCharacter .. => "mixed-character"
  | .tmuxCommand .. => "tmux-command"
  | .tmuxTimeout .. => "tmux-timeout"
  | .dslParse .. => "dsl-parse"
  | .sessionConfig .. => "session-config"
  | .other .. => "unknown"

/-- Function `isRecoverableError` from `src/dsl/errors.ts`, with the `instanceof`
tests in source order. -/
def isRecoverableError : AppError → Bool
  | .mixedCharacter .. => true
  | .dslParse .. => true
  | .tmuxTimeout .. => true
  | .sessionConfig .. => true
  | .tmuxCommand .. => false
  | .other .. => false

/-- Claim C9: `isRecoverableError` returns true exactly for the
Mixed-Character, DSL-Parse, Process-Timeout (`TmuxTimeoutError`) and
Session-Not-Configured (`SessionConfigError`) kinds, and false for
Process-Command (`TmuxCommandError`) and every other error. -/
theorem C9_isRecoverableError (e : AppError) :
    isRecoverableError e = true ↔
      getErrorType e ∈
        ["mixed-character", "dsl-parse", "tmux-timeout", "session-config"] := by
  cases e <;> simp [isRecoverableError, getErrorType]

/-- Claim C3: `executeTmuxCommand` always returns a `TmuxCommandResult`
(the embedding is a total function of the exec outcome); every call
passes a 10 MB `maxBuffer` and a timeout defaulting to 30000 ms to the
child-process invocation; and on any shell failure or timeout (a thrown
outcome) the result has `success = false`, empty output and an error
message, with `success = false` occurring exactly on the thrown
outcomes. -/
theorem C3_executeTmuxCommand :
    executeTmuxCommandDefaultTimeout = 30000 ∧
    (∀ t : Nat, executeTmuxCommandOptions t = ⟨t, 10485760⟩) ∧
    (∀ msg : String,
      executeTmuxCommand (.threwError msg) = ⟨false, "", some msg⟩) ∧
    executeTmuxCommand .threwNonError =
      ⟨false, "", some "Unknown error occurred"⟩ ∧
    (∀ o : ExecOutcome,
      (executeTmuxCommand o).success = false ↔
        o = .threwNonError ∨ ∃ m, o = .threwError m) := by
  refine ⟨rfl, fun t => rfl, fun msg => rfl, rfl, fun o => ?_⟩
  cases o <;> simp [executeTmuxCommand]

/-- Claim C10: when the shell command resolves (exit success) but wrote
to stderr, `executeTmuxCommand` returns `success = true` with the
`error` field set to the stderr text — an error string does not imply
failure. -/
theorem C10_stderr_with_success (stdout stderr : String) (h : stderr ≠ "") :
    executeTmuxCommand (.completed stdout stderr) =
      ⟨true, stdout, some stderr⟩ := by
  simp [executeTmuxCommand, h]

/-- Witness for C10 at a concrete successful call with stderr output. -/
theorem C10_stderr_with_success_witness :
    ("deprecation warning" : String) ≠ "" ∧
    executeTmuxCommand (.completed "ok" "deprecation warning") =
      ⟨true, "ok", some "deprecation warning"⟩ :=
  ⟨by decide, C10_stderr_with_success "ok" "deprecation warning" (by decide)⟩

/-- Claim C1 is violated by the code: `sendKeys` escapes only the double
quote, so the claimed property — for all inputs the text occupies exactly
one double-quoted argument with no character read as shell syntax —
fails.  At text `\` (one backslash) the generated command is
`tmux send-keys -t s -l "\"`: the backslash escapes the closing quote
and the quoted argument never terminates; at text `$H` the dollar is
unescaped inside the quotes and the shell would expand it. -/
theorem C1_sendKeys_escaping_breakout :
    sendKeysCommand "s".data "\\".data true =
      "tmux send-keys -t s -l ".data ++ [DQUOTE, '\\', DQUOTE] ∧
    readDoubleQuoted (escapeDoubleQuotes "\\".data ++ [DQUOTE]) = none ∧
    readDoubleQuoted (escapeDoubleQuotes [DOLLAR, 'H'] ++ [DQUOTE]) = none := by
  decide

/-- Counterexample to claim C2 as stated: the claim quantifies over every
line count, but at `lastLines = 0` the source's `lines.slice(-lastLines)`
is `slice(0)` — the whole line list — so the summary of `"a\nb"` with
`firstLines = 1, lastLines = 0` is not "first 1 line, marker, last 0
lines" (which would end at the marker): it repeats all lines after the
marker. -/
theorem C2_counterexample :
    (processCaptureResult "a\nb".data 1 0).summary ≠
      "a".data ++ omissionMarker 1 ∧
    (processCaptureResult "a\nb".data 1 0).summary =
      "a".data ++ omissionMarker 1 ++ "a\nb".data := by
  decide

/-- Claim C2, amended with `1 ≤ lastLines` (forced by the counterexample):
`processCaptureResult` cleans the text and splits it into lines; when the
line count is at most `firstLines + lastLines` it returns the cleaned
text verbatim untruncated; otherwise the summary is the first
`firstLines` lines, the omission marker stating exactly
`totalLines - firstLines - lastLines` elided lines, and the true last
`lastLines` lines, with `isTruncated = true` and `totalLines` the cleaned
text's line count. -/
theorem C2_processCaptureResult (raw : List Char) (firstLines lastLines : Nat)
    (h : 1 ≤ lastLines) :
    ((splitNl (cleanOutput raw)).length ≤ firstLines + lastLines →
      processCaptureResult raw firstLines lastLines =
        ⟨cleanOutput raw, cleanOutput raw, false,
         (splitNl (cleanOutput raw)).length⟩) ∧
    (firstLines + lastLines < (splitNl (cleanOutput raw)).length →
      processCaptureResult raw firstLines lastLines =
        ⟨cleanOutput raw,
         joinNl ((splitNl (cleanOutput raw)).take firstLines) ++
           omissionMarker
             ((splitNl (cleanOutput raw)).length - firstLines - lastLines) ++
           joinNl ((splitNl (cleanOutput raw)).drop
             ((splitNl (cleanOutput raw)).length - lastLines)),
         true, (splitNl (cleanOutput raw)).length⟩) := by
  constructor
  · intro hle
    simp [processCaptureResult, hle]
  · intro hgt
    have hnle : ¬ (splitNl (cleanOutput raw)).length ≤ firstLines + lastLines := by
      omega
    have hll : lastLines ≤ (splitNl (cleanOutput raw)).length := by omega
    have hslice : jsSliceNeg (splitNl (cleanOutput raw)) lastLines =
        (splitNl (cleanOutput raw)).drop
          ((splitNl (cleanOutput raw)).length - lastLines) := by
      have hne : lastLines ≠ 0 := by omega
      simp [jsSliceNeg, hne, Nat.min_eq_left hll]
    simp [processCaptureResult, hnle, hslice]

/-- Witness for the amended C2 at the claim's 200-line example
(`firstLines = 100`, `lastLines = 50`). -/
theorem C2_processCaptureResult_witness :
    (1 : Nat) ≤ 50 ∧
    (((splitNl (cleanOutput (joinNl (List.replicate 200 "x".data)))).length ≤
        100 + 50 →
      processCaptureResult (joinNl (List.replicate 200 "x".data)) 100 50 =
        ⟨cleanOutput (joinNl (List.replicate 200 "x".data)),
         cleanOutput (joinNl (List.replicate 200 "x".data)), false,
         (splitNl (cleanOutput (joinNl (List.replicate 200 "x".data)))).length⟩) ∧
    (100 + 50 <
        (splitNl (cleanOutput (joinNl (List.replicate 200 "x".data)))).length →
      processCaptureResult (joinNl (List.replicate 200 "x".data)) 100 50 =
        ⟨cleanOutput (joinNl (List.replicate 200 "x".data)),
         joinNl ((splitNl (cleanOutput (joinNl (List.replicate 200 "x".data)))).take
             100) ++
           omissionMarker
             ((splitNl (cleanOutput
                 (joinNl (List.replicate 200 "x".data)))).length - 100 - 50) ++
           joinNl ((splitNl (cleanOutput
               (joinNl (List.replicate 200 "x".data)))).drop
             ((splitNl (cleanOutput
                 (joinNl (List.replicate 200 "x".data)))).length - 50)),
         true,
         (splitNl (cleanOutput (joinNl (List.replicate 200 "x".data)))).length⟩)) :=
  ⟨by decide,
   C2_processCaptureResult (joinNl (List.replicate 200 "x".data)) 100 50
     (by decide)⟩

theorem wordSplit_ne_nil : ∀ l : List Char, wordSplit l ≠ [] := by
  intro l
  cases l with
  | nil => simp [wordSplit]
  | cons c cs =>
    simp only [wordSplit]
    rcases h : wordSplit cs with _ | ⟨w, ws⟩
    · simp
    · by_cases hc : c = ' ' <;> simp [hc]

theorem wordSplit_word_cons (w rest : List Char) (hw : ∀ c ∈ w, c ≠ ' ') :
    wordSplit (w ++ ' ' :: rest) = w :: wordSplit rest := by
  induction w with
  | nil =>
    simp only [List.nil_append, wordSplit]
    rcases h : wordSplit rest with _ | ⟨x, xs⟩
    · exact absurd h (wordSplit_ne_nil rest)
    · simp
  | cons a w' ih =>
    have ha : a ≠ ' ' := hw a (by simp)
    have ih' := ih (fun c hc => hw c (by simp [hc]))
    simp only [List.cons_append, wordSplit, ha]
    rw [show w'.append (' ' :: rest) = w' ++ ' ' :: rest from rfl, ih']
    simp

theorem wordSplit_single (w : List Char) (hw : ∀ c ∈ w, c ≠ ' ') :
    wordSplit w = [w] := by
  induction w with
  | nil => rfl
  | cons a w' ih =>
    have ha : a ≠ ' ' := hw a (by simp)
    have ih' := ih (fun c hc => hw c (by simp [hc]))
    simp [wordSplit, ih', ha]

theorem readDoubleQuoted_escaped (text : List Char)
    (h : isDqSafeText text = true) :
    ∀ r : List Char,
      readDoubleQuoted (escapeDoubleQuotes text ++ DQUOTE :: r) =
        some (text, r) := by
  have e1 : ('\\' : Char) ≠ DQUOTE := by decide
  have e2 : ('\\' : Char) ≠ DOLLAR := by decide
  have e3 : ('\\' : Char) ≠ BACKTICK := by decide
  induction text with
  | nil => intro r; simp [escapeDoubleQuotes, readDoubleQuoted.eq_def]
  | cons c t ih =>
    intro r
    simp only [isDqSafeText, List.all_cons, Bool.and_eq_true] at h
    obtain ⟨hc, ht⟩ := h
    simp only [Bool.not_eq_true', Bool.or_eq_false_iff,
      decide_eq_false_iff_not] at hc
    obtain ⟨⟨hbs, hdol⟩, hbt⟩ := hc
    have ih' := (ih ht) r
    by_cases hdq : c = DQUOTE
    · subst hdq
      have hesc : escapeDoubleQuotes (DQUOTE :: t) =
          '\\' :: DQUOTE :: escapeDoubleQuotes t := by
        simp [escapeDoubleQuotes]
      rw [hesc, readDoubleQuoted.eq_def]
      simp [e1, e2, e3, ih']
    · have hesc : escapeDoubleQuotes (c :: t) = c :: escapeDoubleQuotes t := by
        simp [escapeDoubleQuotes, hdq]
      rw [hesc, readDoubleQuoted.eq_def]
      simp [hdq, hdol, hbt, hbs, ih']

/-- Claim C7: `sendKeys` with its default `literal = true` always places
the `-l` flag between the target and the quoted text, so the content —
including the string "Enter" — is sent as literal characters; for texts
within the sound range of the quoting (no backslash, dollar or backtick,
cf. C1) the quoted argument reads back as exactly the text; and
`sendEnter` issues the bare word `Enter` with no `-l` flag among its
arguments. -/
theorem C7_literal_vs_named_key :
    (∀ s text : List Char,
      sendKeysCommand s text true =
        "tmux send-keys -t ".data ++ s ++ " -l ".data ++
          DQUOTE :: escapeDoubleQuotes text ++ [DQUOTE]) ∧
    (∀ text : List Char, isDqSafeText text = true →
      readDoubleQuoted (escapeDoubleQuotes text ++ [DQUOTE]) =
        some (text, [])) ∧
    (∀ s : List Char, s.all isPlainShellChar = true →
      wordSplit (sendEnterCommand s) =
        ["tmux".data, "send-keys".data, "-t".data, s, "Enter".data] ∧
      (s ≠ "-l".data →
        "-l".data ∉ wordSplit (sendEnterCommand s))) := by
  refine ⟨fun s text => ?_, fun text h => ?_, fun s hs => ?_⟩
  · simp only [sendKeysCommand, List.append_assoc]
    rfl
  · have := readDoubleQuoted_escaped text h []
    simpa using this
  · have hsp : ∀ c ∈ s, c ≠ ' ' := by
      intro c hc hsp
      have := List.all_eq_true.mp hs c hc
      rw [hsp] at this
      simp [isPlainShellChar] at this
    have hcmd : sendEnterCommand s =
        "tmux".data ++ ' ' :: ("send-keys".data ++ ' ' ::
          ("-t".data ++ ' ' :: (s ++ ' ' :: "Enter".data))) := by
      simp only [sendEnterCommand, List.append_assoc]
      rfl
    have hsplit : wordSplit (sendEnterCommand s) =
        ["tmux".data, "send-keys".data, "-t".data, s, "Enter".data] := by
      rw [hcmd, wordSplit_word_cons _ _ (by decide),
        wordSplit_word_cons _ _ (by decide),
        wordSplit_word_cons _ _ (by decide),
        wordSplit_word_cons _ _ hsp,
        wordSplit_single _ (by decide)]
    refine ⟨hsplit, fun hne => ?_⟩
    rw [hsplit]
    simp only [List.mem_cons, List.not_mem_nil, or_false]
    rintro (h | h | h | h | h)
    · exact absurd h (by decide)
    · exact absurd h (by decide)
    · exact absurd h (by decide)
    · exact hne h.symm
    · exact absurd h (by decide)

/-- Witness for C7 at the session "test-session" and the text "Enter":
the text is quoted after `-l` and reads back literally, while `sendEnter`
issues the bare `Enter` argument with no `-l`. -/
theorem C7_literal_vs_named_key_witness :
    sendKeysCommand "test-session".data "Enter".data true =
      "tmux send-keys -t ".data ++ "test-session".data ++ " -l ".data ++
        DQUOTE :: escapeDoubleQuotes "Enter".data ++ [DQUOTE] ∧
    isDqSafeText "Enter".data = true ∧
    readDoubleQuoted (escapeDoubleQuotes "Enter".data ++ [DQUOTE]) =
      some ("Enter".data, []) ∧
    "test-session".data.all isPlainShellChar = true ∧
    wordSplit (sendEnterCommand "test-session".data) =
      ["tmux".data, "send-keys".data, "-t".data, "test-session".data,
       "Enter".data] ∧
    "-l".data ∉ wordSplit (sendEnterCommand "test-session".data) :=
  ⟨C7_literal_vs_named_key.1 "test-session".data "Enter".data,
   by decide,
   C7_literal_vs_named_key.2.1 "Enter".data (by decide),
   by decide,
   (C7_literal_vs_named_key.2.2 "test-session".data (by decide)).1,
   (C7_literal_vs_named_key.2.2 "test-session".data (by decide)).2 (by decide)⟩

theorem runSegments_success (adapter : Nat → ParsedSegment → TmuxCommandResult)
    (s : String) :
    ∀ (segs : List ParsedSegment) (i : Nat),
      (∀ j (hj : j < segs.length),
        (adapter (i + j) (segs.get ⟨j, hj⟩)).success = true) →
      runSegments adapter s i segs =
        (⟨true, "", none⟩, segs.map (segmentCall s)) := by
  intro segs
  induction segs with
  | nil => intro i _; rfl
  | cons seg rest ih =>
    intro i h
    have h0 : (adapter i seg).success = true := by
      have := h 0 (by simp)
      simpa using this
    have hrest : ∀ j (hj : j < rest.length),
        (adapter (i + 1 + j) (rest.get ⟨j, hj⟩)).success = true := by
      intro j hj
      have := h (j + 1) (by simpa using Nat.succ_lt_succ hj)
      have harith : i + (j + 1) = i + 1 + j := by omega
      simpa [harith] using this
    simp [runSegments, h0, ih (i + 1) hrest]

theorem runSegments_failure (adapter : Nat → ParsedSegment → TmuxCommandResult)
    (s : String) :
    ∀ (segs : List ParsedSegment) (i k : Nat) (hk : k < segs.length),
      (∀ j (hj : j < k),
        (adapter (i + j) (segs.get ⟨j, Nat.lt_trans hj hk⟩)).success = true) →
      (adapter (i + k) (segs.get ⟨k, hk⟩)).success = false →
      runSegments adapter s i segs =
        (⟨false, "", (adapter (i + k) (segs.get ⟨k, hk⟩)).error⟩,
         (segs.take (k + 1)).map (segmentCall s)) := by
  intro segs
  induction segs with
  | nil => intro i k hk; simp at hk
  | cons seg rest ih =>
    intro i k hk hpre hfail
    cases k with
    | zero =>
      have hfail0 : (adapter i seg).success = false := by simpa using hfail
      have herr : (adapter (i + 0) ((seg :: rest).get ⟨0, hk⟩)) = adapter i seg := by
        simp
      simp [runSegments, hfail0, herr]
    | succ k' =>
      have h0 : (adapter i seg).success = true := by
        have := hpre 0 (Nat.succ_pos k')
        simpa using this
      have hk' : k' < rest.length := by simpa using Nat.lt_of_succ_lt_succ hk
      have hpre' : ∀ j (hj : j < k'),
          (adapter (i + 1 + j) (rest.get ⟨j, Nat.lt_trans hj hk'⟩)).success = true := by
        intro j hj
        have := hpre (j + 1) (by omega)
        have harith : i + (j + 1) = i + 1 + j := by omega
        simpa [harith] using this
      have hfail' : (adapter (i + 1 + k') (rest.get ⟨k', hk'⟩)).success = false := by
        have harith : i + (k' + 1) = i + 1 + k' := by omega
        simpa [harith] using hfail
      have hrec := ih (i + 1) k' hk' hpre' hfail'
      have harith : i + (k' + 1) = i + 1 + k' := by omega
      simp [runSegments, h0, hrec, harith]

/-- Claim C5: the sequence executor replays the compiled segments in
order with one adapter call per segment (send-key for `Key`,
send-literal-text for `Text`); an empty list succeeds with zero calls;
when every call succeeds it issues exactly one call per segment; and at
the first failing call it stops and returns a failure carrying that
step's error, having issued exactly the calls for the segments up to and
including the failing one. -/
theorem C5_executeCommandSequence
    (adapter : Nat → ParsedSegment → TmuxCommandResult) (sessionName : String)
    (segments : List ParsedSegment) (firstLines lastLines : Nat) :
    executeCommandSequence adapter sessionName [] firstLines lastLines =
      (⟨true, "", none⟩, []) ∧
    ((∀ j (hj : j < segments.length),
        (adapter j (segments.get ⟨j, hj⟩)).success = true) →
      executeCommandSequence adapter sessionName segments firstLines lastLines =
        (⟨true, "", none⟩, segments.map (segmentCall sessionName))) ∧
    (∀ k (hk : k < segments.length),
      (∀ j (hj : j < k),
        (adapter j (segments.get ⟨j, Nat.lt_trans hj hk⟩)).success = true) →
      (adapter k (segments.get ⟨k, hk⟩)).success = false →
      executeCommandSequence adapter sessionName segments firstLines lastLines =
        (⟨false, "", (adapter k (segments.get ⟨k, hk⟩)).error⟩,
         (segments.take (k + 1)).map (segmentCall sessionName))) := by
  refine ⟨rfl, fun h => ?_, fun k hk hpre hfail => ?_⟩
  · have := runSegments_success adapter sessionName segments 0
      (fun j hj => by simpa using h j hj)
    simpa [executeCommandSequence] using this
  · have := runSegments_failure adapter sessionName segments 0 k hk
      (fun j hj => by simpa using hpre j hj)
      (by simpa using hfail)
    simpa [executeCommandSequence] using this

/-- Witness for C5 matching the spec's example: three segments whose
second adapter call fails produce exactly two adapter calls and a
failure carrying the second step's error. -/
theorem C5_executeCommandSequence_witness :
    (1 : Nat) <
      ([ParsedSegment.key "Down", ParsedSegment.key "Down",
        ParsedSegment.key "Enter"] : List ParsedSegment).length ∧
    executeCommandSequence
      (fun i _ =>
        if i = 1 then (⟨false, "", some "Session error"⟩ : TmuxCommandResult)
        else ⟨true, "", none⟩)
      "test-session"
      [ParsedSegment.key "Down", ParsedSegment.key "Down",
       ParsedSegment.key "Enter"] 10 10 =
      (⟨false, "", some "Session error"⟩,
       [AdapterCall.sendKey "test-session" "Down",
        AdapterCall.sendKey "test-session" "Down"]) := by
  refine ⟨by decide, ?_⟩
  have h := (C5_executeCommandSequence
    (fun i _ =>
      if i = 1 then (⟨false, "", some "Session error"⟩ : TmuxCommandResult)
      else ⟨true, "", none⟩)
    "test-session"
    [ParsedSegment.key "Down", ParsedSegment.key "Down",
     ParsedSegment.key "Enter"] 10 10).2.2
    1 (by decide) (by decide) (by decide)
  simpa using h

theorem startsWithL_iff (n : List Char) :
    ∀ h : List Char, startsWithL n h = true ↔ ∃ y, h = n ++ y := by
  induction n with
  | nil => intro h; simp [startsWithL]
  | cons a as ih =>
    intro h
    cases h with
    | nil => simp [startsWithL]
    | cons b bs =>
      simp only [startsWithL, Bool.and_eq_true, decide_eq_true_eq, ih bs]
      constructor
      · rintro ⟨rfl, y, rfl⟩
        exact ⟨y, rfl⟩
      · rintro ⟨y, hy⟩
        simp only [List.cons_append, List.cons.injEq] at hy
        exact ⟨hy.1.symm, y, hy.2⟩

theorem containsSub_iff (n : List Char) :
    ∀ h : List Char, containsSub n h = true ↔ ∃ x y, h = x ++ n ++ y := by
  intro h
  induction h with
  | nil =>
    simp only [containsSub, List.isEmpty_iff]
    constructor
    · rintro rfl
      exact ⟨[], [], rfl⟩
    · rintro ⟨x, y, hy⟩
      rcases x <;> rcases n <;> simp_all
  | cons c rest ih =>
    simp only [containsSub, Bool.or_eq_true, startsWithL_iff, ih]
    constructor
    · rintro (⟨y, hy⟩ | ⟨x, y, rfl⟩)
      · exact ⟨[], y, by simpa using hy⟩
      · exact ⟨c :: x, y, rfl⟩
    · rintro ⟨x, y, hy⟩
      cases x with
      | nil =>
        left
        simp only [List.nil_append] at hy
        exact ⟨y, hy⟩
      | cons c' x' =>
        right
        simp only [List.cons_append, List.cons.injEq] at hy
        exact ⟨x', y, hy.2⟩

theorem jsSliceNeg_pos (l : List (List Char)) (n : Nat) (hn : n ≠ 0) :
    jsSliceNeg l n = lastNLines n l := by
  simp [jsSliceNeg, lastNLines, hn]

/-- Claim C8: `detectError` is true exactly when the whole cleaned,
lower-cased output contains one of the six error patterns as a substring
— anywhere, with no trailing-window restriction (the decompositions
`x ++ pattern ++ y` quantify over arbitrary prefixes). -/
theorem C8_detectError (output : List Char) :
    detectError output = true ↔
      (∃ x y, toLowerL (cleanOutput output) = x ++ "error:".data ++ y) ∨
      (∃ x y, toLowerL (cleanOutput output) = x ++ "exception:".data ++ y) ∨
      (∃ x y, toLowerL (cleanOutput output) = x ++ "fatal:".data ++ y) ∨
      (∃ x y, toLowerL (cleanOutput output) = x ++ "failed:".data ++ y) ∨
      (∃ x y, toLowerL (cleanOutput output) = x ++ "cannot".data ++ y) ∨
      (∃ x y, toLowerL (cleanOutput output) = x ++ "unable to".data ++ y) := by
  simp [detectError, errorPatterns, List.any_cons, List.any_nil,
    containsSub_iff]

/-- Claim C6: `detectInteractivePrompt` is true exactly when the last 5
lines of the cleaned output, lower-cased, contain one of the five prompt
patterns; in particular any output in whose last-5-line window no
pattern occurs — even if one occurs higher up — yields false. -/
theorem C6_detectInteractivePrompt (output : List Char) :
    (detectInteractivePrompt output = true ↔
      (∃ x y, toLowerL (joinNl (lastNLines 5 (splitNl (cleanOutput output)))) =
        x ++ "[y/n]".data ++ y) ∨
      (∃ x y, toLowerL (joinNl (lastNLines 5 (splitNl (cleanOutput output)))) =
        x ++ "continue?".data ++ y) ∨
      (∃ x y, toLowerL (joinNl (lastNLines 5 (splitNl (cleanOutput output)))) =
        x ++ "proceed?".data ++ y) ∨
      (∃ x y, toLowerL (joinNl (lastNLines 5 (splitNl (cleanOutput output)))) =
        x ++ "do you want to".data ++ y) ∨
      (∃ x y, toLowerL (joinNl (lastNLines 5 (splitNl (cleanOutput output)))) =
        x ++ "would you like to".data ++ y)) ∧
    ((promptPatterns.all fun p =>
        !containsSub p
          (toLowerL (joinNl (lastNLines 5 (splitNl (cleanOutput output)))))) =
          true →
      detectInteractivePrompt output = false) := by
  have hwin : jsSliceNeg (splitNl (cleanOutput output)) 5 =
      lastNLines 5 (splitNl (cleanOutput output)) :=
    jsSliceNeg_pos _ 5 (by decide)
  constructor
  · simp [detectInteractivePrompt, promptPatterns, hwin, List.any_cons,
      List.any_nil, containsSub_iff]
  · intro h
    rw [Bool.eq_false_iff]
    intro hT
    have hT' := List.any_eq_true.mp
      (by simpa [detectInteractivePrompt, hwin] using hT)
    obtain ⟨p, hp, hc⟩ := hT'
    have := List.all_eq_true.mp h p hp
    simp [hc] at this

/-- Witness for C6's window restriction: "continue?" occurs above the
last 5 lines only, so no prompt is detected. -/
theorem C6_detectInteractivePrompt_witness :
    ((promptPatterns.all fun p =>
        !containsSub p
          (toLowerL (joinNl (lastNLines 5
            (splitNl (cleanOutput "continue?\na\nb\nc\nd\ne".data)))))) =
        true) ∧
    detectInteractivePrompt "continue?\na\nb\nc\nd\ne".data = false :=
  ⟨by decide,
   (C6_detectInteractivePrompt "continue?\na\nb\nc\nd\ne".data).2 (by decide)⟩

/-- A character free of the classes `removeAnsiCodes` deletes: printable
(codepoint at least 32, not DEL) or one of tab, newline, carriage
return. -/
def plainCharB (c : Char) : Bool :=
  (32 ≤ c.toNat && c.toNat ≠ 127) || c = '\t' || c = '\n' || c = '\r'

theorem plain_ne_esc (c : Char) (h : plainCharB c = true) : c ≠ ESC := by
  rintro rfl
  exact absurd h (by decide)

theorem plain_not_ctrl (c : Char) (h : plainCharB c = true) :
    isOtherCtrl c = false := by
  simp only [plainCharB, Bool.or_eq_true, Bool.and_eq_true,
    decide_eq_true_eq, bne_iff_ne, ne_eq] at h
  rcases h with ((⟨h1, h2⟩ | rfl) | rfl) | rfl
  · simp only [isOtherCtrl, Bool.or_eq_false_iff, Bool.and_eq_false_iff]
    refine ⟨⟨⟨?_, ?_⟩, ?_⟩, ?_⟩ <;> simp <;> omega
  · decide
  · decide
  · decide

theorem alpha_not_param (c : Char) (h : isAsciiAlpha c = true) :
    isCsiParam c = false := by
  simp only [isAsciiAlpha] at h
  simp only [isCsiParam, Bool.or_eq_false_iff]
  constructor
  · simp only [Char.isAlpha, Char.isUpper, Char.isLower, Bool.or_eq_true,
      Bool.and_eq_true, decide_eq_true_eq] at h
    simp only [Char.isDigit, Bool.and_eq_false_iff]
    rcases h with ⟨h2, _⟩ | ⟨h2, _⟩
    · right
      simp only [Bool.not_eq_true', decide_eq_false_iff_not]
      intro hle
      exact absurd (UInt32.le_trans h2 hle) (by decide)
    · right
      simp only [Bool.not_eq_true', decide_eq_false_iff_not]
      intro hle
      exact absurd (UInt32.le_trans h2 hle) (by decide)
  · simp only [decide_eq_false_iff_not]
    rintro rfl
    exact absurd h (by decide)

theorem csiGo_text (t : List Char) (hl : ∀ c ∈ t, c ≠ ESC) (l : List Char) :
    csiGo .normal (t ++ l) = t ++ csiGo .normal l := by
  induction t with
  | nil => simp
  | cons c t' ih =>
    have hc : c ≠ ESC := hl c (by simp)
    simp [csiGo, hc, ih (fun x hx => hl x (by simp [hx]))]

theorem csiGo_params (ps : List Char) (hps : ∀ c ∈ ps, isCsiParam c = true)
    (f : Char) (hf : isAsciiAlpha f = true) :
    ∀ (acc : List Char) (l : List Char),
      csiGo (.inParams acc) (ps ++ f :: l) = csiGo .normal l := by
  induction ps with
  | nil =>
    intro acc l
    simp [csiGo, alpha_not_param f hf, hf]
  | cons p ps' ih =>
    intro acc l
    have hp : isCsiParam p = true := hps p (by simp)
    simp only [List.cons_append, csiGo, hp, if_pos]
    exact ih (fun x hx => hps x (by simp [hx])) (acc ++ [p]) l

theorem csiGo_run (ps : List Char) (hps : ∀ c ∈ ps, isCsiParam c = true)
    (f : Char) (hf : isAsciiAlpha f = true) (l : List Char) :
    csiGo .normal (ESC :: '[' :: (ps ++ f :: l)) = csiGo .normal l := by
  simp only [csiGo, if_pos rfl]
  exact csiGo_params ps hps f hf [] l

theorem csiGo_osc (b : List Char) (hb : ∀ c ∈ b, c ≠ ESC) (l : List Char) :
    csiGo .normal (ESC :: ']' :: (b ++ BEL :: l)) =
      ESC :: ']' :: (b ++ BEL :: csiGo .normal l) := by
  have h1 : (']' : Char) ≠ '[' := by decide
  have h2 : (']' : Char) ≠ ESC := by decide
  have h3 : BEL ≠ ESC := by decide
  simp only [csiGo, if_pos rfl, h1, h2, if_neg, if_false]
  simp only [csiGo_text b hb (BEL :: l)]
  simp [csiGo, h3]

theorem oscGo_text (t : List Char) (hl : ∀ c ∈ t, c ≠ ESC) (l : List Char) :
    oscGo .normal (t ++ l) = t ++ oscGo .normal l := by
  induction t with
  | nil => simp
  | cons c t' ih =>
    have hc : c ≠ ESC := hl c (by simp)
    simp [oscGo, hc, ih (fun x hx => hl x (by simp [hx]))]

theorem oscGo_body (b : List Char) (hb : ∀ c ∈ b, c ≠ BEL) :
    ∀ (acc : List Char) (l : List Char),
      oscGo (.inBody acc) (b ++ BEL :: l) = oscGo .normal l := by
  induction b with
  | nil =>
    intro acc l
    simp [oscGo]
  | cons c b' ih =>
    intro acc l
    have hc : c ≠ BEL := hb c (by simp)
    simp only [List.cons_append, oscGo, hc, if_neg, if_false]
    exact ih (fun x hx => hb x (by simp [hx])) (acc ++ [c]) l

theorem oscGo_run (b : List Char) (hb : ∀ c ∈ b, c ≠ BEL) (l : List Char) :
    oscGo .normal (ESC :: ']' :: (b ++ BEL :: l)) = oscGo .normal l := by
  simp only [oscGo, if_pos rfl]
  exact oscGo_body b hb [] l

theorem stripMode_no_esc : ∀ l : List Char, (∀ c ∈ l, c ≠ ESC) →
    stripMode l = l := by
  intro l
  induction l with
  | nil => intro _; rfl
  | cons c rest ih =>
    intro h
    have hc : c ≠ ESC := h c (by simp)
    cases rest with
    | nil => rfl
    | cons d rest2 =>
      have hrest : stripMode (d :: rest2) = d :: rest2 :=
        ih (fun x hx => h x (by simp [hx]))
      simp [stripMode, hc, hrest]

theorem stripCtrl_plain (l : List Char) (h : ∀ c ∈ l, plainCharB c = true) :
    stripCtrl l = l := by
  apply List.filter_eq_self.mpr
  intro a ha
  simp [plain_not_ctrl a (h a ha)]

/-- A building block of a mixed terminal output: plain text, a complete
CSI run `ESC [ params letter` (parameters in the implementation's class
`[0-9;]`), or a complete OSC run `ESC ] body BEL`. -/
inductive AnsiPiece
  | text (t : List Char)
  | csiRun (params : List Char) (final : Char)
  | oscRun (body : List Char)

/-- The characters a piece stands for. -/
def AnsiPiece.render : AnsiPiece → List Char
  | .text t => t
  | .csiRun ps f => ESC :: '[' :: (ps ++ [f])
  | .oscRun b => ESC :: ']' :: (b ++ [BEL])

/-- Well-formedness: text is plain; CSI parameters lie in `[0-9;]` with a
letter final; an OSC body contains neither BEL nor ESC. -/
def AnsiPiece.wf : AnsiPiece → Bool
  | .text t => t.all plainCharB
  | .csiRun ps f => ps.all isCsiParam && isAsciiAlpha f
  | .oscRun b => b.all (fun c => !(c = BEL || c = ESC))

/-- Concatenation of the rendered pieces. -/
def renderPieces (ps : List AnsiPiece) : List Char :=
  (ps.map AnsiPiece.render).flatten

/-- Concatenation of only the text pieces. -/
def plainParts (ps : List AnsiPiece) : List Char :=
  (ps.map fun p =>
    match p with
    | .text t => t
    | _ => []).flatten

/-- Replace a CSI run by empty text (the effect of the first pass). -/
def csiErase : AnsiPiece → AnsiPiece
  | .csiRun _ _ => .text []
  | p => p

/-- Replace an OSC run by empty text (the effect of the second pass). -/
def oscErase : AnsiPiece → AnsiPiece
  | .oscRun _ => .text []
  | p => p

theorem plain_all_ne_esc (t : List Char) (h : t.all plainCharB = true) :
    ∀ c ∈ t, c ≠ ESC :=
  fun c hc => plain_ne_esc c (List.all_eq_true.mp h c hc)

theorem stripCSI_pieces : ∀ ps : List AnsiPiece,
    ps.all AnsiPiece.wf = true →
    stripCSI (renderPieces ps) = renderPieces (ps.map csiErase) := by
  intro ps
  induction ps with
  | nil => intro _; rfl
  | cons p rest ih =>
    intro h
    simp only [List.all_cons, Bool.and_eq_true] at h
    obtain ⟨hp, hrest⟩ := h
    have ih' := ih hrest
    cases p with
    | text t =>
      simp only [AnsiPiece.wf] at hp
      simp only [renderPieces, List.map_cons, List.flatten_cons,
        AnsiPiece.render, csiErase]
      rw [show stripCSI (t ++ (rest.map AnsiPiece.render).flatten) =
            t ++ stripCSI ((rest.map AnsiPiece.render).flatten) from
          csiGo_text t (plain_all_ne_esc t hp) _]
      rw [show stripCSI ((rest.map AnsiPiece.render).flatten) =
            renderPieces (rest.map csiErase) from ih']
      rfl
    | csiRun prm f =>
      simp only [AnsiPiece.wf, Bool.and_eq_true] at hp
      obtain ⟨hprm, hf⟩ := hp
      simp only [renderPieces, List.map_cons, List.flatten_cons,
        AnsiPiece.render, csiErase]
      have hshape : (ESC :: '[' :: (prm ++ [f])) ++
          (rest.map AnsiPiece.render).flatten =
          ESC :: '[' :: (prm ++ f :: (rest.map AnsiPiece.render).flatten) := by
        simp
      rw [show stripCSI ((ESC :: '[' :: (prm ++ [f])) ++
            (rest.map AnsiPiece.render).flatten) =
          stripCSI ((rest.map AnsiPiece.render).flatten) by
        unfold stripCSI
        rw [hshape]
        exact csiGo_run prm (List.all_eq_true.mp hprm) f hf _]
      rw [show stripCSI ((rest.map AnsiPiece.render).flatten) =
            renderPieces (rest.map csiErase) from ih']
      rfl
    | oscRun b =>
      simp only [AnsiPiece.wf] at hp
      have hbesc : ∀ c ∈ b, c ≠ ESC := by
        intro c hc he
        have := List.all_eq_true.mp hp c hc
        rw [he] at this
        simp at this
      simp only [renderPieces, List.map_cons, List.flatten_cons,
        AnsiPiece.render, csiErase]
      have hshape : (ESC :: ']' :: (b ++ [BEL])) ++
          (rest.map AnsiPiece.render).flatten =
          ESC :: ']' :: (b ++ BEL :: (rest.map AnsiPiece.render).flatten) := by
        simp
      rw [show stripCSI ((ESC :: ']' :: (b ++ [BEL])) ++
            (rest.map AnsiPiece.render).flatten) =
          ESC :: ']' :: (b ++ BEL ::
            stripCSI ((rest.map AnsiPiece.render).flatten)) by
        unfold stripCSI
        rw [hshape]
        exact csiGo_osc b hbesc _]
      rw [show stripCSI ((rest.map AnsiPiece.render).flatten) =
            renderPieces (rest.map csiErase) from ih']
      simp [renderPieces]

/-- Is the piece not a CSI run (holds for every output of `csiErase`)? -/
def AnsiPiece.noCsi : AnsiPiece → Bool
  | .csiRun _ _ => false
  | _ => true

theorem stripOSC_pieces : ∀ ps : List AnsiPiece,
    ps.all (fun p => p.wf && p.noCsi) = true →
    stripOSC (renderPieces ps) = renderPieces (ps.map oscErase) := by
  intro ps
  induction ps with
  | nil => intro _; rfl
  | cons p rest ih =>
    intro h
    simp only [List.all_cons, Bool.and_eq_true] at h
    obtain ⟨⟨hp, hnc⟩, hrest⟩ := h
    have ih' := ih hrest
    cases p with
    | text t =>
      simp only [AnsiPiece.wf] at hp
      simp only [renderPieces, List.map_cons, List.flatten_cons,
        AnsiPiece.render, oscErase]
      rw [show stripOSC (t ++ (rest.map AnsiPiece.render).flatten) =
            t ++ stripOSC ((rest.map AnsiPiece.render).flatten) from
          oscGo_text t (plain_all_ne_esc t hp) _]
      rw [show stripOSC ((rest.map AnsiPiece.render).flatten) =
            renderPieces (rest.map oscErase) from ih']
      rfl
    | csiRun prm f =>
      simp [AnsiPiece.noCsi] at hnc
    | oscRun b =>
      simp only [AnsiPiece.wf] at hp
      have hbbel : ∀ c ∈ b, c ≠ BEL := by
        intro c hc he
        have := List.all_eq_true.mp hp c hc
        rw [he] at this
        simp at this
      simp only [renderPieces, List.map_cons, List.flatten_cons,
        AnsiPiece.render, oscErase]
      have hshape : (ESC :: ']' :: (b ++ [BEL])) ++
          (rest.map AnsiPiece.render).flatten =
          ESC :: ']' :: (b ++ BEL :: (rest.map AnsiPiece.render).flatten) := by
        simp
      rw [show stripOSC ((ESC :: ']' :: (b ++ [BEL])) ++
            (rest.map AnsiPiece.render).flatten) =
          stripOSC ((rest.map AnsiPiece.render).flatten) by
        unfold stripOSC
        rw [hshape]
        exact oscGo_run b hbbel _]
      rw [show stripOSC ((rest.map AnsiPiece.render).flatten) =
            renderPieces (rest.map oscErase) from ih']
      rfl

theorem csiErase_wf : ∀ ps : List AnsiPiece, ps.all AnsiPiece.wf = true →
    (ps.map csiErase).all (fun p => p.wf && p.noCsi) = true := by
  intro ps
  induction ps with
  | nil => intro _; rfl
  | cons p rest ih =>
    intro h
    simp only [List.all_cons, Bool.and_eq_true] at h
    obtain ⟨hp, hrest⟩ := h
    simp only [List.map_cons, List.all_cons, Bool.and_eq_true]
    refine ⟨?_, ih hrest⟩
    cases p with
    | text t => simpa [csiErase, AnsiPiece.wf, AnsiPiece.noCsi] using hp
    | csiRun prm f => simp [csiErase, AnsiPiece.wf, AnsiPiece.noCsi]
    | oscRun b => simpa [csiErase, AnsiPiece.wf, AnsiPiece.noCsi] using hp

theorem erase_render_plain : ∀ ps : List AnsiPiece,
    renderPieces ((ps.map csiErase).map oscErase) = plainParts ps := by
  intro ps
  induction ps with
  | nil => rfl
  | cons p rest ih =>
    simp only [List.map_cons, renderPieces, List.flatten_cons, plainParts]
    cases p <;>
      simp only [csiErase, oscErase, AnsiPiece.render] <;>
      simpa [renderPieces, plainParts] using ih

theorem plainParts_plain : ∀ ps : List AnsiPiece,
    ps.all AnsiPiece.wf = true → ∀ c ∈ plainParts ps, plainCharB c = true := by
  intro ps
  induction ps with
  | nil => intro _ c hc; simp [plainParts] at hc
  | cons p rest ih =>
    intro h c hc
    simp only [List.all_cons, Bool.and_eq_true] at h
    obtain ⟨hp, hrest⟩ := h
    simp only [plainParts, List.map_cons, List.flatten_cons,
      List.mem_append] at hc
    rcases hc with hc | hc
    · cases p with
      | text t =>
        simp only [AnsiPiece.wf] at hp
        exact List.all_eq_true.mp hp c hc
      | csiRun prm f => simp at hc
      | oscRun b => simp at hc
    · exact ih hrest c (by simpa [plainParts] using hc)

/-- Claim C4: `removeAnsiCodes` is the identity on every string free of
escape characters and of control bytes other than tab, newline and
carriage return; and on any interleaving of such plain text with
complete CSI runs (`ESC [ params letter`, parameters in the
implementation's class `[0-9;]`) and complete OSC runs (`ESC ] body
BEL`), it deletes every run in its entirety and returns the surrounding
text concatenated. -/
theorem C4_removeAnsiCodes :
    (∀ t : List Char, t.all plainCharB = true → removeAnsiCodes t = t) ∧
    (∀ ps : List AnsiPiece, ps.all AnsiPiece.wf = true →
      removeAnsiCodes (renderPieces ps) = plainParts ps) := by
  have hplain : ∀ t : List Char, t.all plainCharB = true →
      removeAnsiCodes t = t := by
    intro t ht
    have hne := plain_all_ne_esc t ht
    have h1 : stripCSI t = t := by
      have := csiGo_text t hne []
      rw [List.append_nil, show csiGo CsiState.normal [] = [] from rfl,
        List.append_nil] at this
      exact this
    have h2 : stripOSC t = t := by
      have := oscGo_text t hne []
      rw [List.append_nil, show oscGo OscState.normal [] = [] from rfl,
        List.append_nil] at this
      exact this
    have h3 : stripMode t = t := stripMode_no_esc t hne
    have h4 : stripCtrl t = t :=
      stripCtrl_plain t (fun c hc => List.all_eq_true.mp ht c hc)
    simp [removeAnsiCodes, h1, h2, h3, h4]
  refine ⟨hplain, fun ps hwf => ?_⟩
  have h1 : stripCSI (renderPieces ps) = renderPieces (ps.map csiErase) :=
    stripCSI_pieces ps hwf
  have h2 : stripOSC (renderPieces (ps.map csiErase)) =
      renderPieces ((ps.map csiErase).map oscErase) :=
    stripOSC_pieces (ps.map csiErase) (csiErase_wf ps hwf)
  have h3 : renderPieces ((ps.map csiErase).map oscErase) = plainParts ps :=
    erase_render_plain ps
  have hpp : (plainParts ps).all plainCharB = true :=
    List.all_eq_true.mpr (plainParts_plain ps hwf)
  have hne := plain_all_ne_esc _ hpp
  have h4 : stripMode (plainParts ps) = plainParts ps :=
    stripMode_no_esc _ hne
  have h5 : stripCtrl (plainParts ps) = plainParts ps :=
    stripCtrl_plain _ (fun c hc => List.all_eq_true.mp hpp c hc)
  simp only [removeAnsiCodes]
  rw [h1, h2, h3, h4, h5]

/-- Witness for C4: plain text round-trips unchanged, and the repository
test's mixed input `ESC[1m ESC[31m Bold Red ESC[0m ESC[32m Green ESC[0m`
strips to "Bold RedGreen". -/
theorem C4_removeAnsiCodes_witness :
    ("Plain text 123".data.all plainCharB = true ∧
      removeAnsiCodes "Plain text 123".data = "Plain text 123".data) ∧
    (([AnsiPiece.csiRun "1".data 'm', AnsiPiece.csiRun "31".data 'm',
       AnsiPiece.text "Bold Red".data, AnsiPiece.csiRun "0".data 'm',
       AnsiPiece.csiRun "32".data 'm', AnsiPiece.text "Green".data,
       AnsiPiece.csiRun "0".data 'm',
       AnsiPiece.oscRun "0;Title".data] : List AnsiPiece).all
        AnsiPiece.wf = true ∧
      removeAnsiCodes (renderPieces
        [AnsiPiece.csiRun "1".data 'm', AnsiPiece.csiRun "31".data 'm',
         AnsiPiece.text "Bold Red".data, AnsiPiece.csiRun "0".data 'm',
         AnsiPiece.csiRun "32".data 'm', AnsiPiece.text "Green".data,
         AnsiPiece.csiRun "0".data 'm',
         AnsiPiece.oscRun "0;Title".data]) =
      plainParts
        [AnsiPiece.csiRun "1".data 'm', AnsiPiece.csiRun "31".data 'm',
         AnsiPiece.text "Bold Red".data, AnsiPiece.csiRun "0".data 'm',
         AnsiPiece.csiRun "32".data 'm', AnsiPiece.text "Green".data,
         AnsiPiece.csiRun "0".data 'm',
         AnsiPiece.oscRun "0;Title".data]) :=
  ⟨⟨by decide, C4_removeAnsiCodes.1 "Plain text 123".data (by decide)⟩,
   ⟨by decide, C4_removeAnsiCodes.2 _ (by decide)⟩⟩

end RemoteClaude
